import Mathlib

/-!
Verification development for the `reports_app` slide-deck report service
(`src/app.py`, the local-template variant, and `src/api/app.py`, the
remote-template variant).  The Python source is shallowly embedded here:
run texts are lists of characters, the per-run placeholder substitution of
`replace_placeholders` is modelled by `Reports.applyMapping` (a fold of
Python `str.replace` over the mapping entries), the date reformatting of
`format_date_dd_mm_yyyy` is modelled by an executable matcher mirroring its
regular expression (four digits, a dash-or-slash separator, one or two
digits, a separator, one or two digits) with the leftmost and greedy
matching discipline of `re.search`, and the request handlers are
modelled as functions over explicit environments recording the outcomes of
the external effects (template fetch, executable lookup, subprocess run,
file existence), paired with the list of scratch-file deletions attempted.
Python `\d` and `str.strip` are Unicode-aware; the embedding models their
ASCII fragment, and the universally quantified date claims are therefore
stated for ASCII inputs (`AsciiStr`), on which the two coincide.
-/

namespace Reports

/-- Texts of the embedded program: Python strings as lists of characters. -/
abbrev Str := List Char

/-- A Python value stored in the field mapping built by the handlers:
a string, an integer (`DAYS_COUNT`) or `None` (absent Hijri dates). -/
inductive PyVal where
  | pstr (s : Str)
  | pint (n : Int)
  | pnone
deriving DecidableEq

/-- Mapping keys are strings. -/
abbrev Key := Str

/-- The replacement string used by `replace_placeholders`:
`str(value) if value is not None else ""`. -/
def strOfV : PyVal → Str
  | .pstr s => s
  | .pint n => (toString n).data
  | .pnone => []

/-- `f"{{{{{key}}}}}"`: the literal placeholder token of a key. -/
def tokL (k : Key) : Str :=
  '{' :: '{' :: (k ++ ['}', '}'])

/-- A string without brace characters. -/
def braceFree (l : Str) : Prop := ∀ c ∈ l, c ≠ '{' ∧ c ≠ '}'

instance (l : Str) : Decidable (braceFree l) := by
  unfold braceFree; infer_instance

/-- Fuelled left-to-right replacement of every non-overlapping occurrence of
`pat` by `rep`, the semantics of Python `str.replace` for a non-empty
pattern.  The fuel only drives the recursion; `replaceL` instantiates it
with the length of the string, which is always sufficient. -/
def replaceFuel (pat rep : Str) : Nat → Str → Str
  | _, [] => []
  | 0, s => s
  | fuel + 1, c :: cs =>
    if !pat.isEmpty && pat.isPrefixOf (c :: cs) then
      rep ++ replaceFuel pat rep fuel ((c :: cs).drop pat.length)
    else
      c :: replaceFuel pat rep fuel cs

/-- Python `text.replace(pat, rep)` (the patterns of this program, the
placeholder tokens, are never empty). -/
def replaceL (pat rep s : Str) : Str :=
  replaceFuel pat rep s.length s

/-- Whether `pat` occurs as a contiguous sublist of `s`. -/
def occursB (pat : Str) : Str → Bool
  | [] => pat.isEmpty
  | c :: cs => pat.isPrefixOf (c :: cs) || occursB pat cs

/-- The inner loop of `replace_placeholders` on one run text:
`for key, value in mapping.items(): new_text = new_text.replace(...)`. -/
def applyMapping (m : List (Key × PyVal)) (t : Str) : Str :=
  m.foldl (fun acc kv => replaceL (tokL kv.1) (strOfV kv.2) acc) t

/-- First-match association lookup, the key-to-value function of the
Python dict underlying a mapping. -/
def lookupKV (k : Key) : List (Key × PyVal) → Option PyVal
  | [] => none
  | kv :: rest => if kv.1 = k then some kv.2 else lookupKV k rest

/-- A Python dict has pairwise distinct keys. -/
def NodupKeys (m : List (Key × PyVal)) : Prop := (m.map Prod.fst).Nodup

instance (m : List (Key × PyVal)) : Decidable (NodupKeys m) := by
  unfold NodupKeys; infer_instance

/-- Keys and value strings of the mapping are brace-free. -/
def MapWF (m : List (Key × PyVal)) : Prop :=
  ∀ kv ∈ m, braceFree kv.1 ∧ braceFree (strOfV kv.2)

instance (m : List (Key × PyVal)) : Decidable (MapWF m) := by
  unfold MapWF; infer_instance

/-! ## The document model

A presentation is a list of slides, a slide a list of shapes; a shape with a
text frame carries its paragraphs, each a list of formatted runs.  The
`bad` constructor stands for a shape whose processing raises an internal
error: the `except Exception: continue` of `replace_placeholders` skips it
and carries on with the remaining shapes. -/

/-- A text run: its text and an abstract formatting attribute (font, size,
color, style), which the substitution never touches. -/
structure Run where
  text : Str
  fmt : Nat
deriving DecidableEq

/-- A shape on a slide. -/
inductive Shape where
  /-- A shape with a text frame holding paragraphs of runs. -/
  | tf (paragraphs : List (List Run))
  /-- A shape without a text frame (`has_text_frame` is false). -/
  | plain
  /-- A shape whose processing raises an internal error. -/
  | bad
deriving DecidableEq

/-- The per-run body of `replace_placeholders`: compute the replaced text
and overwrite the run only when the text changed.  The boolean records
whether the run was written to. -/
def processRun (m : List (Key × PyVal)) (r : Run) : Run × Bool :=
  let t := applyMapping m r.text
  if t = r.text then (r, false) else ({ text := t, fmt := r.fmt }, true)

/-- Processing of one shape: runs of a text frame are rewritten,
frame-less shapes are untouched, failing shapes are skipped. -/
def processShape (m : List (Key × PyVal)) : Shape → Shape
  | .tf ps => .tf (ps.map (List.map (fun r => (processRun m r).1)))
  | .plain => .plain
  | .bad => .bad

/-- `replace_placeholders`: every shape of every slide is processed. -/
def replace_placeholders (m : List (Key × PyVal)) (prs : List (List Shape)) :
    List (List Shape) :=
  prs.map (List.map (processShape m))

/-- The run at slide `i`, shape `j`, paragraph `p`, run `q`, when the shape
there carries a text frame. -/
def getRun (prs : List (List Shape)) (i j p q : Nat) : Option Run :=
  match prs.get? i with
  | none => none
  | some sl =>
    match sl.get? j with
    | some (Shape.tf ps) =>
      match ps.get? p with
      | none => none
      | some rs => rs.get? q
    | _ => none

/-! ## Token-structured texts

To reason about substitution, a run text is decomposed into segments:
brace-free literal stretches and whole placeholder tokens.  `render`
flattens the decomposition back into the raw text. -/

/-- A segment of a run text. -/
inductive Seg where
  | lit (s : Str)
  | tok (k : Key)
deriving DecidableEq

/-- The raw text of one segment. -/
def renderSeg : Seg → Str
  | .lit s => s
  | .tok k => tokL k

/-- The raw text of a segment decomposition. -/
def render : List Seg → Str
  | [] => []
  | sg :: rest => renderSeg sg ++ render rest

/-- Substitute one key: its token segments become the literal replacement. -/
def substOne (k : Key) (rep : Str) : Seg → Seg
  | .lit s => .lit s
  | .tok k2 => if k2 = k then .lit rep else .tok k2

/-- Substitute every key of the mapping at once, each token by the value of
the first entry carrying its key. -/
def substAll (m : List (Key × PyVal)) : Seg → Seg
  | .lit s => .lit s
  | .tok k =>
    match lookupKV k m with
    | some v => .lit (strOfV v)
    | none => .tok k

/-- Sequential segment-level substitution, one mapping entry at a time, in
iteration order. -/
def segSubstFold (m : List (Key × PyVal)) (segs : List Seg) : List Seg :=
  m.foldl (fun ss kv => ss.map (substOne kv.1 (strOfV kv.2))) segs

/-- Well-formed segment: its literal or its key is brace-free. -/
def SegWF : Seg → Prop
  | .lit s => braceFree s
  | .tok k => braceFree k

instance (sg : Seg) : Decidable (SegWF sg) := by
  cases sg <;> (unfold SegWF; infer_instance)

/-- All segments of a decomposition are well-formed. -/
def SegsWF (segs : List Seg) : Prop := ∀ sg ∈ segs, SegWF sg

instance (segs : List Seg) : Decidable (SegsWF segs) := by
  unfold SegsWF; infer_instance

/-! ## The date normalizer (`format_date_dd_mm_yyyy`, `src/api/app.py`)

`re.search` with pattern: four digits, a dash-or-slash separator, one or
two digits, a separator, one or two digits.  The search is leftmost; the
one-or-two-digit groups are greedy with backtracking. -/

/-- The separator class of the pattern: a dash or a slash. -/
def isSepC (c : Char) : Bool := c == '-' || c == '/'

/-- The ASCII whitespace characters.  Python `str.strip` also removes
Unicode-only whitespace; this embedding models its ASCII fragment, and
the universally quantified date claims below are therefore restricted to
ASCII inputs (`AsciiStr`), on which the two agree. -/
def isSpaceC (c : Char) : Bool :=
  c == ' ' || c == '\t' || c == '\n' || c == '\r' || c == '\x0b' || c == '\x0c'

/-- Python `str.strip`, on its ASCII fragment: drop leading and trailing
ASCII whitespace. -/
def stripL (s : Str) : Str :=
  ((s.dropWhile isSpaceC).reverse.dropWhile isSpaceC).reverse

/-- Match the month group and its following separator at the head of the
list: greedily two digits, else one, each requiring a separator after.
Returns the month digits and the remainder after the separator.  Here and
in `matchDay`/`matchAt`, a digit is an ASCII digit: Python `\d` also
matches Unicode decimal digits, so the matcher models the ASCII fragment
of the regular expression and the universally quantified date claims are
restricted to ASCII inputs, on which the two agree. -/
def matchMonth : Str → Option (Str × Str)
  | m1 :: m2 :: s2 :: rest =>
    if m1.isDigit && m2.isDigit && isSepC s2 then some ([m1, m2], rest)
    else if m1.isDigit && isSepC m2 then some ([m1], s2 :: rest)
    else none
  | [m1, s2] => if m1.isDigit && isSepC s2 then some ([m1], []) else none
  | _ => none

/-- Match the trailing day group at the head of the list: greedily two
digits, else one. -/
def matchDay : Str → Option Str
  | e1 :: e2 :: _ =>
    if e1.isDigit && e2.isDigit then some [e1, e2]
    else if e1.isDigit then some [e1] else none
  | [e1] => if e1.isDigit then some [e1] else none
  | [] => none

/-- Match the whole pattern at the head of the list, returning the year,
month and day groups. -/
def matchAt : Str → Option (Str × Str × Str)
  | d1 :: d2 :: d3 :: d4 :: s1 :: rest =>
    if d1.isDigit && d2.isDigit && d3.isDigit && d4.isDigit && isSepC s1 then
      match matchMonth rest with
      | some (mo, rest2) =>
        match matchDay rest2 with
        | some d => some ([d1, d2, d3, d4], mo, d)
        | none => none
      | none => none
    else none
  | _ => none

/-- `re.search`: the leftmost position where the pattern matches. -/
def dateSearch : Str → Option (Str × Str × Str)
  | [] => none
  | c :: cs =>
    match matchAt (c :: cs) with
    | some g => some g
    | none => dateSearch cs

/-- Python `str.zfill(2)` on a digit group. -/
def zfill2 (l : Str) : Str :=
  if l.length < 2 then List.replicate (2 - l.length) '0' ++ l else l

/-- The body of `format_date_dd_mm_yyyy` on a present string value. -/
def format_date_core (v : Str) : Str :=
  let s := stripL v
  match dateSearch s with
  | none => s
  | some (y, mo, d) => zfill2 d ++ '-' :: (zfill2 mo ++ '-' :: y)

/-- `format_date_dd_mm_yyyy`: `None` passes through, otherwise strip,
search and reformat. -/
def format_date_dd_mm_yyyy : Option Str → Option Str
  | none => none
  | some v => some (format_date_core v)

/-- All characters are ASCII digits. -/
def DigitsL (l : Str) : Prop := ∀ c ∈ l, c.isDigit = true

instance (l : Str) : Decidable (DigitsL l) := by
  unfold DigitsL; infer_instance

/-- The spec-level date pattern with the given year, month and day groups,
anchored at the head of `l`: a four-digit year, a separator, a
one-or-two-digit month, a separator, a one-or-two-digit day, each
separator independently a dash or a slash. -/
def PatternAtG (l y mo d : Str) : Prop :=
  ∃ s1 s2 post,
    l = y ++ s1 :: (mo ++ s2 :: (d ++ post)) ∧
    y.length = 4 ∧ DigitsL y ∧ isSepC s1 = true ∧
    1 ≤ mo.length ∧ mo.length ≤ 2 ∧ DigitsL mo ∧ isSepC s2 = true ∧
    1 ≤ d.length ∧ d.length ≤ 2 ∧ DigitsL d

/-- The spec-level date pattern anchored at the head of `l`, with the
groups abstracted away. -/
def PatternAt (l : Str) : Prop :=
  ∃ y mo d, PatternAtG l y mo d

/-- The string contains an occurrence of the date pattern. -/
def HasDatePattern (s : Str) : Prop :=
  ∃ pre rest, s = pre ++ rest ∧ PatternAt rest

/-- A string of ASCII characters: the fragment on which the embedded
matcher and strip coincide exactly with the Unicode-aware Python
`re.search` with `\d` and `str.strip`. -/
def AsciiStr (s : Str) : Prop := ∀ c ∈ s, c.toNat < 128

instance (s : Str) : Decidable (AsciiStr s) := by
  unfold AsciiStr; infer_instance

/-! ## Request payloads and the field mappings of the handlers -/

/-- The request body schema shared by all endpoints. -/
structure ReportPayload where
  SERVICE_CODE : Str
  ID_NUMBER : Str
  NAME_AR : Str
  NAME_EN : Str
  DAYS_COUNT : Int
  ENTRY_DATE_GREGORIAN : Str
  EXIT_DATE_GREGORIAN : Str
  ENTRY_DATE_HIJRI : Option Str
  EXIT_DATE_HIJRI : Option Str
  REPORT_ISSUE_DATE : Str
  NATIONALITY_AR : Str
  NATIONALITY_EN : Str
  DOCTOR_NAME_AR : Str
  DOCTOR_NAME_EN : Str
  JOB_TITLE_AR : Str
  JOB_TITLE_EN : Str
  HOSPITAL_NAME_AR : Str
  HOSPITAL_NAME_EN : Str
  PRINT_DATE : Str
  PRINT_TIME : Str

/-- An optional string as a Python mapping value. -/
def optPy : Option Str → PyVal
  | none => .pnone
  | some s => .pstr s

/-- The field mapping of `/generate-pptx` in `src/api/app.py`: the date
normalizer is applied to all six date fields. -/
def mappingPptxApi (p : ReportPayload) : List (Key × PyVal) :=
  [ (("SERVICE_CODE").data, .pstr p.SERVICE_CODE),
    (("ID_NUMBER").data, .pstr p.ID_NUMBER),
    (("NAME_AR").data, .pstr p.NAME_AR),
    (("NAME_EN").data, .pstr p.NAME_EN),
    (("DAYS_COUNT").data, .pint p.DAYS_COUNT),
    (("ENTRY_DATE_GREGORIAN").data, .pstr (format_date_core p.ENTRY_DATE_GREGORIAN)),
    (("EXIT_DATE_GREGORIAN").data, .pstr (format_date_core p.EXIT_DATE_GREGORIAN)),
    (("ENTRY_DATE_HIJRI").data, optPy (p.ENTRY_DATE_HIJRI.map format_date_core)),
    (("EXIT_DATE_HIJRI").data, optPy (p.EXIT_DATE_HIJRI.map format_date_core)),
    (("REPORT_ISSUE_DATE").data, .pstr (format_date_core p.REPORT_ISSUE_DATE)),
    (("NATIONALITY_AR").data, .pstr p.NATIONALITY_AR),
    (("NATIONALITY_EN").data, .pstr p.NATIONALITY_EN),
    (("DOCTOR_NAME_AR").data, .pstr p.DOCTOR_NAME_AR),
    (("DOCTOR_NAME_EN").data, .pstr p.DOCTOR_NAME_EN),
    (("JOB_TITLE_AR").data, .pstr p.JOB_TITLE_AR),
    (("JOB_TITLE_EN").data, .pstr p.JOB_TITLE_EN),
    (("HOSPITAL_NAME_AR").data, .pstr p.HOSPITAL_NAME_AR),
    (("HOSPITAL_NAME_EN").data, .pstr p.HOSPITAL_NAME_EN),
    (("PRINT_DATE").data, .pstr (format_date_core p.PRINT_DATE)),
    (("PRINT_TIME").data, .pstr p.PRINT_TIME) ]

/-- The field mapping of `/generate-pdf` in `src/api/app.py`: the two
Hijri date fields are passed through raw, unlike the other four date
fields. -/
def mappingPdfApi (p : ReportPayload) : List (Key × PyVal) :=
  [ (("SERVICE_CODE").data, .pstr p.SERVICE_CODE),
    (("ID_NUMBER").data, .pstr p.ID_NUMBER),
    (("NAME_AR").data, .pstr p.NAME_AR),
    (("NAME_EN").data, .pstr p.NAME_EN),
    (("DAYS_COUNT").data, .pint p.DAYS_COUNT),
    (("ENTRY_DATE_GREGORIAN").data, .pstr (format_date_core p.ENTRY_DATE_GREGORIAN)),
    (("EXIT_DATE_GREGORIAN").data, .pstr (format_date_core p.EXIT_DATE_GREGORIAN)),
    (("ENTRY_DATE_HIJRI").data, optPy p.ENTRY_DATE_HIJRI),
    (("EXIT_DATE_HIJRI").data, optPy p.EXIT_DATE_HIJRI),
    (("REPORT_ISSUE_DATE").data, .pstr (format_date_core p.REPORT_ISSUE_DATE)),
    (("NATIONALITY_AR").data, .pstr p.NATIONALITY_AR),
    (("NATIONALITY_EN").data, .pstr p.NATIONALITY_EN),
    (("DOCTOR_NAME_AR").data, .pstr p.DOCTOR_NAME_AR),
    (("DOCTOR_NAME_EN").data, .pstr p.DOCTOR_NAME_EN),
    (("JOB_TITLE_AR").data, .pstr p.JOB_TITLE_AR),
    (("JOB_TITLE_EN").data, .pstr p.JOB_TITLE_EN),
    (("HOSPITAL_NAME_AR").data, .pstr p.HOSPITAL_NAME_AR),
    (("HOSPITAL_NAME_EN").data, .pstr p.HOSPITAL_NAME_EN),
    (("PRINT_DATE").data, .pstr (format_date_core p.PRINT_DATE)),
    (("PRINT_TIME").data, .pstr p.PRINT_TIME) ]

/-- The field mapping built by both endpoints of `src/app.py` (the
local-template variant): no date normalization at all. -/
def mappingLocal (p : ReportPayload) : List (Key × PyVal) :=
  [ (("SERVICE_CODE").data, .pstr p.SERVICE_CODE),
    (("ID_NUMBER").data, .pstr p.ID_NUMBER),
    (("NAME_AR").data, .pstr p.NAME_AR),
    (("NAME_EN").data, .pstr p.NAME_EN),
    (("DAYS_COUNT").data, .pint p.DAYS_COUNT),
    (("ENTRY_DATE_GREGORIAN").data, .pstr p.ENTRY_DATE_GREGORIAN),
    (("EXIT_DATE_GREGORIAN").data, .pstr p.EXIT_DATE_GREGORIAN),
    (("ENTRY_DATE_HIJRI").data, optPy p.ENTRY_DATE_HIJRI),
    (("EXIT_DATE_HIJRI").data, optPy p.EXIT_DATE_HIJRI),
    (("REPORT_ISSUE_DATE").data, .pstr p.REPORT_ISSUE_DATE),
    (("NATIONALITY_AR").data, .pstr p.NATIONALITY_AR),
    (("NATIONALITY_EN").data, .pstr p.NATIONALITY_EN),
    (("DOCTOR_NAME_AR").data, .pstr p.DOCTOR_NAME_AR),
    (("DOCTOR_NAME_EN").data, .pstr p.DOCTOR_NAME_EN),
    (("JOB_TITLE_AR").data, .pstr p.JOB_TITLE_AR),
    (("JOB_TITLE_EN").data, .pstr p.JOB_TITLE_EN),
    (("HOSPITAL_NAME_AR").data, .pstr p.HOSPITAL_NAME_AR),
    (("HOSPITAL_NAME_EN").data, .pstr p.HOSPITAL_NAME_EN),
    (("PRINT_DATE").data, .pstr p.PRINT_DATE),
    (("PRINT_TIME").data, .pstr p.PRINT_TIME) ]

/-! ## The HTTP handlers as environment-passing functions

Pure in-memory steps (mapping construction, substitution, serialization)
cannot fail in the embedding and are elided from the control flow; each
external effect is an explicit environment field.  A handler result pairs
the HTTP outcome with the list of scratch-file paths whose deletion the
handler attempted. -/

/-- An HTTP error response (FastAPI `HTTPException`). -/
structure HTTPErr where
  status : Nat
  detail : Str
deriving DecidableEq

/-- A fetched HTTP response (`requests.get`). -/
structure FetchResp where
  status : Int
  content : List Nat
deriving DecidableEq

/-- Outcome of `requests.get`: a raised `RequestException` or a response. -/
inductive FetchOutcome where
  | exc (msg : Str)
  | resp (r : FetchResp)
deriving DecidableEq

/-- A loaded presentation document, abstracted to the bytes it was parsed
from. -/
structure PresDoc where
  bytes : List Nat
deriving DecidableEq

/-- Environment of the remote-template variant: the `PPTX_TEMPLATE_URL`
configuration and the behavior of `requests.get` per URL and timeout. -/
structure ApiEnv where
  templateUrl : Option Str
  fetch : Str → Nat → FetchOutcome

/-- Detail of the missing-configuration error of the template loader. -/
def msgNoUrl : Str := ("PPTX_TEMPLATE_URL environment variable is not set").data

/-- Integer rendering used in error details. -/
def intToStr (n : Int) : Str := (toString n).data

/-- `load_template_presentation` of `src/api/app.py`, returning the loader
outcome and the log of fetches performed (URL and timeout). -/
def load_template_presentation (env : ApiEnv) :
    Except HTTPErr PresDoc × List (Str × Nat) :=
  match env.templateUrl with
  | none => (.error ⟨500, msgNoUrl⟩, [])
  | some url =>
    match env.fetch url 20 with
    | .exc msg => (.error ⟨500, ("Error fetching template: ").data ++ msg⟩, [(url, 20)])
    | .resp r =>
      if r.status = 200 then (.ok ⟨r.content⟩, [(url, 20)])
      else
        (.error ⟨500, ("Failed to fetch template from URL: ").data ++ intToStr r.status⟩,
          [(url, 20)])

/-- `os.getenv("LIBREOFFICE_PATH") or shutil.which("soffice") or
shutil.which("soffice.exe")`, with the two `which` lookups combined. -/
def resolveSoffice (envOverride whichResult : Option Str) : Option Str :=
  match envOverride with
  | some s => some s
  | none => whichResult

/-- Strip the last extension of a path (`pathlib.Path.with_suffix` on the
scratch names used here). -/
def dropLastExt (p : Str) : Str :=
  match p.reverse.dropWhile (fun c => c != '.') with
  | [] => p
  | _ :: rest => rest.reverse

/-- The `.pdf` sibling of the scratch `.pptx` path. -/
def withSuffixPdf (p : Str) : Str := dropLastExt p ++ (".pdf").data

/-- Detail of the missing-executable error. -/
def sofficeMissingMsg : Str :=
  ("LibreOffice \x27soffice\x27 not found in PATH. Set LIBREOFFICE_PATH or install LibreOffice.").data

/-- Prefix of the failed-conversion error detail. -/
def msgConvFailed : Str := ("LibreOffice conversion failed: ").data

/-- Detail of the missing-output error. -/
def msgPdfMissing : Str := ("Converted PDF not found after LibreOffice run.").data

/-- Environment of the `/generate-pdf` handler of `src/api/app.py`. -/
structure ConvEnvA where
  api : ApiEnv
  tmpPptxPath : Str
  libreofficePath : Option Str
  whichSoffice : Option Str
  runReturncode : Int
  runStdout : Str
  runStderr : Str
  producedPdfExists : Bool
  pdfBytes : List Nat

/-- `/generate-pdf` of `src/api/app.py`.  On the conversion-error paths the
`HTTPException` raised inside the inner `except` clause propagates past the
cleanup statements, so no deletion is attempted there; the two deletions
run only on the success path. -/
def generate_pdf_api (env : ConvEnvA) (_p : ReportPayload) :
    Except HTTPErr (List Nat) × List Str :=
  match (load_template_presentation env.api).1 with
  | .error e => (.error e, [])
  | .ok _prs =>
    -- mapping `mappingPdfApi _p` is built, substitution is applied and the
    -- document is saved to the scratch pptx; these steps are pure here
    match resolveSoffice env.libreofficePath env.whichSoffice with
    | none => (.error ⟨500, sofficeMissingMsg⟩, [])
    | some _soffice =>
      if env.runReturncode ≠ 0 then
        (.error ⟨500, msgConvFailed ++
          (if env.runStderr.isEmpty then env.runStdout else env.runStderr)⟩, [])
      else if env.producedPdfExists = false then
        (.error ⟨500, msgPdfMissing⟩, [])
      else
        (.ok env.pdfBytes, [env.tmpPptxPath, withSuffixPdf env.tmpPptxPath])

/-- Environment of the `/generate-pdf` handler of `src/app.py` (the
local-template variant). -/
structure LocalEnv where
  templatePath : Str
  templateExists : Bool
  presLoadOk : Bool
  presLoadErr : Str
  tmpPptxPath : Str
  libreofficePath : Option Str
  whichSoffice : Option Str
  runReturncode : Int
  runStdout : Str
  runStderr : Str
  producedPdfExists : Bool

/-- Detail of the `NameError` raised by reading the undefined name
`tmp_pdf_path`, as rendered by `str(e)`. -/
def nameErrorMsg : Str := ("name \x27tmp_pdf_path\x27 is not defined").data

/-- `/generate-pdf` of `src/app.py`.  After a successful conversion the
handler opens `tmp_pdf_path`, a name that is never assigned: the resulting
`NameError` triggers the `finally` cleanup of both scratch files and is
then converted to a 500 response by the outer handler, so no request ever
receives a PDF. -/
def generate_pdf_local (env : LocalEnv) (_p : ReportPayload) :
    Except HTTPErr (List Nat) × List Str :=
  if env.templateExists = false then
    (.error ⟨500, ("Template not found: ").data ++ env.templatePath⟩, [])
  else if env.presLoadOk = false then
    (.error ⟨500, env.presLoadErr⟩, [])
  else
    -- mapping `mappingLocal _p` is built, substitution applied, scratch saved
    match resolveSoffice env.libreofficePath env.whichSoffice with
    | none => (.error ⟨500, sofficeMissingMsg⟩, [])
    | some _soffice =>
      if env.runReturncode ≠ 0 then
        (.error ⟨500, msgConvFailed ++
          (if env.runStderr.isEmpty then env.runStdout else env.runStderr)⟩, [])
      else if env.producedPdfExists = false then
        (.error ⟨500, msgPdfMissing⟩, [])
      else
        (.error ⟨500, nameErrorMsg⟩, [env.tmpPptxPath, withSuffixPdf env.tmpPptxPath])

/-! ## Concrete instances used by witnesses and counterexamples -/

/-- A sample request payload; the Hijri entry date carries a reformattable
date. -/
def samplePayload : ReportPayload :=
  ⟨("SC1").data, ("123").data, ("nameAr").data, ("nameEn").data, 3,
   ("2024-3-5").data, ("2024-3-7").data,
   some (("1446-1-2").data), some (("1446-1-4").data),
   ("2024-3-7").data, ("natAr").data, ("natEn").data, ("docAr").data,
   ("docEn").data, ("jobAr").data, ("jobEn").data, ("hospAr").data,
   ("hospEn").data, ("2024-3-7").data, ("10:00").data⟩

/-- A mapping whose first value contains the token of the second key. -/
def mC1x : List (Key × PyVal) :=
  [ ((("A").data : Key), .pstr (tokL (("B").data))),
    ((("B").data : Key), .pstr (("x").data)) ]

/-- A one-run document whose only run is exactly the token of key A. -/
def prsC1x : List (List Shape) :=
  [[Shape.tf [[⟨tokL (("A").data), 0⟩]]]]

/-- A brace-free one-entry mapping. -/
def mC1w : List (Key × PyVal) :=
  [ ((("K").data : Key), .pstr (("val").data)) ]

/-- A one-run document whose only run is exactly the token of key K. -/
def prsC1w : List (List Shape) :=
  [[Shape.tf [[⟨tokL (("K").data), 3⟩]]]]

/-- The mapping of `mC1x` in its given iteration order. -/
def mC5a : List (Key × PyVal) :=
  [ ((("A").data : Key), .pstr (tokL (("B").data))),
    ((("B").data : Key), .pstr (("x").data)) ]

/-- The same two entries in the opposite iteration order. -/
def mC5b : List (Key × PyVal) :=
  [ ((("B").data : Key), .pstr (("x").data)),
    ((("A").data : Key), .pstr (tokL (("B").data))) ]

/-- A brace-free two-entry mapping. -/
def mC5wA : List (Key × PyVal) :=
  [ ((("A").data : Key), .pstr (("1").data)),
    ((("B").data : Key), .pstr (("2").data)) ]

/-- The entries of `mC5wA` in the opposite iteration order. -/
def mC5wB : List (Key × PyVal) :=
  [ ((("B").data : Key), .pstr (("2").data)),
    ((("A").data : Key), .pstr (("1").data)) ]

/-- A token-structured run text: token A, a literal, token B. -/
def segsC5w : List Seg :=
  [Seg.tok (("A").data), Seg.lit (("q").data), Seg.tok (("B").data)]

/-- A one-entry mapping whose token does not occur in `rC8w`. -/
def mC8w : List (Key × PyVal) :=
  [ ((("NAME_AR").data : Key), .pstr (("x").data)) ]

/-- A run without any placeholder token. -/
def rC8w : Run := ⟨("hello").data, 7⟩

/-- A loader environment with no configured template URL. -/
def envC9w : ApiEnv := ⟨none, fun _ _ => .resp ⟨200, []⟩⟩

/-- A conversion environment: template fetch succeeds, but no LibreOffice
executable is configured or found. -/
def envC4w : ConvEnvA :=
  ⟨⟨some (("http://templates.example/report.pptx").data),
    fun _ _ => .resp ⟨200, []⟩⟩,
   ("/tmp/scratch.pptx").data, none, none, 0, [], [], true, []⟩

/-- A local-variant environment: template present and loadable, but no
LibreOffice executable. -/
def envC4wL : LocalEnv :=
  ⟨("/app/template.pptx").data, true, true, [], ("/tmp/scratch.pptx").data,
   none, none, 0, [], [], true⟩

/-- A local-variant environment where every external step succeeds. -/
def envC6w : LocalEnv :=
  ⟨("/app/template.pptx").data, true, true, [], ("/tmp/scratch.pptx").data,
   some (("soffice").data), none, 0, [], [], true⟩

/-! # Lemmas about the replacement function -/

theorem replaceFuel_nil (pat rep : Str) : ∀ f, replaceFuel pat rep f [] = []
  | 0 => rfl
  | _ + 1 => rfl

theorem replaceFuel_congr (pat rep : Str) :
    ∀ f1 f2 s, s.length ≤ f1 → s.length ≤ f2 →
      replaceFuel pat rep f1 s = replaceFuel pat rep f2 s := by
  intro f1
  induction f1 with
  | zero =>
    intro f2 s h1 _
    have hs : s = [] := List.eq_nil_of_length_eq_zero (Nat.le_zero.mp h1)
    subst hs
    rw [replaceFuel_nil, replaceFuel_nil]
  | succ g ih =>
    intro f2 s h1 h2
    cases s with
    | nil => rw [replaceFuel_nil, replaceFuel_nil]
    | cons c cs =>
      cases f2 with
      | zero => simp at h2
      | succ g2 =>
        show replaceFuel pat rep (g + 1) (c :: cs) = replaceFuel pat rep (g2 + 1) (c :: cs)
        simp only [replaceFuel]
        have hg : cs.length ≤ g := by
          simp only [List.length_cons] at h1
          omega
        have hg2 : cs.length ≤ g2 := by
          simp only [List.length_cons] at h2
          omega
        by_cases hc : (!pat.isEmpty && pat.isPrefixOf (c :: cs)) = true
        · rw [if_pos hc, if_pos hc]
          have hpat : 1 ≤ pat.length := by
            cases pat with
            | nil => simp at hc
            | cons a as => simp
          have hlen : ((c :: cs).drop pat.length).length ≤ cs.length := by
            rw [List.length_drop]
            simp only [List.length_cons]
            omega
          rw [ih g2 _ (le_trans hlen hg) (le_trans hlen hg2)]
        · rw [if_neg hc, if_neg hc, ih g2 _ hg hg2]

theorem replaceL_nil (pat rep : Str) : replaceL pat rep [] = [] := rfl

theorem replaceL_cons (pat rep : Str) (c : Char) (cs : Str) :
    replaceL pat rep (c :: cs) =
      if !pat.isEmpty && pat.isPrefixOf (c :: cs) then
        rep ++ replaceL pat rep ((c :: cs).drop pat.length)
      else
        c :: replaceL pat rep cs := by
  show replaceFuel pat rep (c :: cs).length (c :: cs) = _
  have e : (c :: cs).length = cs.length + 1 := rfl
  rw [e]
  simp only [replaceFuel]
  by_cases hc : (!pat.isEmpty && pat.isPrefixOf (c :: cs)) = true
  · rw [if_pos hc, if_pos hc]
    have hpat : 1 ≤ pat.length := by
      cases pat with
      | nil => simp at hc
      | cons a as => simp
    have hlen : ((c :: cs).drop pat.length).length ≤ cs.length := by
      rw [List.length_drop]
      simp only [List.length_cons]
      omega
    rw [replaceFuel_congr pat rep cs.length ((c :: cs).drop pat.length).length _ hlen le_rfl]
    rfl
  · rw [if_neg hc, if_neg hc]
    rfl

theorem isPrefixOf_append_self : ∀ (l t : Str), (l.isPrefixOf (l ++ t)) = true := by
  intro l t
  induction l with
  | nil => simp [List.isPrefixOf]
  | cons c cs ih => simp [List.isPrefixOf, ih]

theorem replaceL_of_not_occurs (pat rep : Str) :
    ∀ s, occursB pat s = false → replaceL pat rep s = s := by
  intro s
  induction s with
  | nil => intro _; rfl
  | cons c cs ih =>
    intro h
    simp only [occursB, Bool.or_eq_false_iff] at h
    rw [replaceL_cons, if_neg (by simp [h.1]), ih h.2]

theorem replaceL_append_left (p rep : Str) :
    ∀ (x t : Str), '{' ∉ x →
      replaceL ('{' :: p) rep (x ++ t) = x ++ replaceL ('{' :: p) rep t := by
  intro x
  induction x with
  | nil => intro t _; rfl
  | cons c cs ih =>
    intro t hx
    have hc : ('{' : Char) ≠ c := fun h => hx (h ▸ List.mem_cons_self c cs)
    have hpre : (('{' :: p).isPrefixOf (c :: (cs ++ t))) = false := by
      simp only [List.isPrefixOf, Bool.and_eq_false_iff]
      left
      exact beq_eq_false_iff_ne.mpr hc
    rw [List.cons_append, replaceL_cons, if_neg (by simp [hpre]),
      ih t (fun h => hx (List.mem_cons_of_mem c h))]
    rfl

theorem replaceL_tok_self (k : Key) (rep t : Str) :
    replaceL (tokL k) rep (tokL k ++ t) = rep ++ replaceL (tokL k) rep t := by
  have e : tokL k ++ t = '{' :: (('{' :: (k ++ ['}', '}'])) ++ t) := rfl
  rw [e, replaceL_cons, ← e]
  have hne : (!(tokL k).isEmpty) = true := rfl
  rw [if_pos (by rw [hne, isPrefixOf_append_self, Bool.and_self]), List.drop_left]

theorem not_prefixOf_tok_tail :
    ∀ (k k2 : Key) (t : Str), braceFree k → braceFree k2 → k ≠ k2 →
      ((k ++ ['}', '}']).isPrefixOf ((k2 ++ ['}', '}']) ++ t)) = false := by
  intro k
  induction k with
  | nil =>
    intro k2 t _ hk2 hne
    cases k2 with
    | nil => exact absurd rfl hne
    | cons b k2t =>
      have hb : ('}' : Char) ≠ b := fun h => (hk2 b (List.mem_cons_self b k2t)).2 h.symm
      simp only [List.nil_append, List.cons_append, List.isPrefixOf,
        Bool.and_eq_false_iff]
      left
      exact beq_eq_false_iff_ne.mpr hb
  | cons a k1 ih =>
    intro k2 t hk hne2 hne
    cases k2 with
    | nil =>
      have ha : a ≠ ('}' : Char) := (hk a (List.mem_cons_self a k1)).2
      simp only [List.nil_append, List.cons_append, List.isPrefixOf,
        Bool.and_eq_false_iff]
      left
      exact beq_eq_false_iff_ne.mpr ha
    | cons b k2t =>
      by_cases hab : a = b
      · subst hab
        have hk1 : braceFree k1 := fun c hc => hk c (List.mem_cons_of_mem a hc)
        have hk2t : braceFree k2t := fun c hc => hne2 c (List.mem_cons_of_mem a hc)
        have hne1 : k1 ≠ k2t := fun h => hne (h ▸ rfl)
        simp only [List.cons_append, List.isPrefixOf, beq_self_eq_true, Bool.true_and]
        exact ih k2t t hk1 hk2t hne1
      · simp only [List.cons_append, List.isPrefixOf, Bool.and_eq_false_iff]
        left
        exact beq_eq_false_iff_ne.mpr hab

theorem not_prefixOf_tok_mid (k k2 : Key) (t : Str) (hk2 : braceFree k2) :
    ((tokL k).isPrefixOf ('{' :: ((k2 ++ ['}', '}']) ++ t))) = false := by
  cases k2 with
  | nil => simp [tokL, List.isPrefixOf]
  | cons b k2t =>
    have hb : ('{' : Char) ≠ b := fun h => (hk2 b (List.mem_cons_self b k2t)).1 h.symm
    simp only [tokL, List.cons_append, List.isPrefixOf, beq_self_eq_true, Bool.true_and,
      Bool.and_eq_false_iff]
    left
    exact beq_eq_false_iff_ne.mpr hb

theorem replaceL_tok_other (k k2 : Key) (rep t : Str)
    (hk : braceFree k) (hk2 : braceFree k2) (hne : k ≠ k2) :
    replaceL (tokL k) rep (tokL k2 ++ t) = tokL k2 ++ replaceL (tokL k) rep t := by
  have e : tokL k2 ++ t = '{' :: ('{' :: ((k2 ++ ['}', '}']) ++ t)) := rfl
  have h0 : ((tokL k).isPrefixOf ('{' :: ('{' :: ((k2 ++ ['}', '}']) ++ t)))) = false := by
    simp only [tokL, List.isPrefixOf, beq_self_eq_true, Bool.true_and]
    exact not_prefixOf_tok_tail k k2 t hk hk2 hne
  have h1 : ((tokL k).isPrefixOf ('{' :: ((k2 ++ ['}', '}']) ++ t))) = false :=
    not_prefixOf_tok_mid k k2 t hk2
  have hx : ('{' : Char) ∉ k2 ++ ['}', '}'] := by
    intro hmem
    rcases List.mem_append.mp hmem with h | h
    · exact (hk2 _ h).1 rfl
    · simp at h
  rw [e, replaceL_cons,
    if_neg (by rw [h0, Bool.and_false]; exact Bool.false_ne_true),
    replaceL_cons,
    if_neg (by rw [h1, Bool.and_false]; exact Bool.false_ne_true)]
  have e2 : tokL k = '{' :: ('{' :: (k ++ ['}', '}'])) := rfl
  rw [e2, replaceL_append_left _ rep _ t hx, ← e2]
  simp [tokL]

theorem replaceL_render (k : Key) (rep : Str) (hk : braceFree k) :
    ∀ segs, SegsWF segs →
      replaceL (tokL k) rep (render segs) = render (segs.map (substOne k rep)) := by
  intro segs
  induction segs with
  | nil => intro _; rfl
  | cons sg rest ih =>
    intro hwf
    have hsg : SegWF sg := hwf sg (List.mem_cons_self sg rest)
    have hrest : SegsWF rest := fun s hs => hwf s (List.mem_cons_of_mem sg hs)
    cases sg with
    | lit s =>
      have hxs : ('{' : Char) ∉ s := fun h => ((hsg : braceFree s) _ h).1 rfl
      show replaceL (tokL k) rep (s ++ render rest) = _
      have e2 : tokL k = '{' :: ('{' :: (k ++ ['}', '}'])) := rfl
      rw [e2, replaceL_append_left _ rep s (render rest) hxs, ← e2, ih hrest]
      simp [render, renderSeg, substOne]
    | tok k2 =>
      show replaceL (tokL k) rep (tokL k2 ++ render rest) = _
      by_cases hkk : k2 = k
      · subst hkk
        rw [replaceL_tok_self, ih hrest]
        simp [render, renderSeg, substOne]
      · rw [replaceL_tok_other k k2 rep (render rest) hk hsg (fun h => hkk h.symm),
          ih hrest]
        simp [render, renderSeg, substOne, hkk]

theorem segsWF_map_substOne (k : Key) (rep : Str) (hrep : braceFree rep) :
    ∀ segs, SegsWF segs → SegsWF (segs.map (substOne k rep)) := by
  intro segs hwf sg hsg
  rcases List.mem_map.mp hsg with ⟨sg0, hsg0, he⟩
  subst he
  have h0 : SegWF sg0 := hwf sg0 hsg0
  cases sg0 with
  | lit s => exact h0
  | tok k2 =>
    by_cases hkk : k2 = k
    · simp only [substOne, if_pos hkk]
      exact hrep
    · simp only [substOne, if_neg hkk]
      exact h0

theorem applyMapping_render :
    ∀ (m : List (Key × PyVal)) (segs : List Seg), MapWF m → SegsWF segs →
      applyMapping m (render segs) = render (segSubstFold m segs) := by
  intro m
  induction m with
  | nil => intro segs _ _; rfl
  | cons kv m2 ih =>
    intro segs hm hs
    have hk : braceFree kv.1 := (hm kv (List.mem_cons_self kv m2)).1
    have hrep : braceFree (strOfV kv.2) := (hm kv (List.mem_cons_self kv m2)).2
    have e1 : applyMapping (kv :: m2) (render segs)
        = applyMapping m2 (replaceL (tokL kv.1) (strOfV kv.2) (render segs)) := rfl
    rw [e1, replaceL_render kv.1 (strOfV kv.2) hk segs hs,
      ih _ (fun x hx => hm x (List.mem_cons_of_mem kv hx))
        (segsWF_map_substOne kv.1 (strOfV kv.2) hrep segs hs)]
    rfl

theorem substAll_nil (sg : Seg) : substAll [] sg = sg := by
  cases sg <;> simp [substAll, lookupKV]

theorem segSubstFold_eq_substAll :
    ∀ (m : List (Key × PyVal)) (segs : List Seg),
      segSubstFold m segs = segs.map (substAll m) := by
  intro m
  induction m with
  | nil =>
    intro segs
    show segs = segs.map (substAll [])
    rw [show substAll [] = id from funext substAll_nil, List.map_id]
  | cons kv m2 ih =>
    intro segs
    show segSubstFold m2 (segs.map (substOne kv.1 (strOfV kv.2))) = _
    rw [ih, List.map_map]
    have hfun : substAll m2 ∘ substOne kv.1 (strOfV kv.2) = substAll (kv :: m2) := by
      funext sg
      cases sg with
      | lit s => rfl
      | tok k =>
        show substAll m2 (substOne kv.1 (strOfV kv.2) (Seg.tok k)) = _
        by_cases hkk : k = kv.1
        · subst hkk
          simp [substOne, substAll, lookupKV]
        · have h2 : kv.1 ≠ k := fun h => hkk h.symm
          simp only [substOne, if_neg hkk, substAll, lookupKV, if_neg h2]
    rw [hfun]

theorem lookupKV_perm {m m2 : List (Key × PyVal)} (hp : m.Perm m2) :
    NodupKeys m → ∀ k, lookupKV k m = lookupKV k m2 := by
  induction hp with
  | nil => intro _ k; rfl
  | cons x p ih =>
    intro hnd k
    by_cases h : x.1 = k
    · simp [lookupKV, h]
    · simp only [lookupKV, if_neg h]
      exact ih (by
        unfold NodupKeys at hnd ⊢
        simp only [List.map_cons] at hnd
        exact hnd.of_cons) k
  | swap x y l =>
    intro hnd k
    have hxy : y.1 ≠ x.1 := by
      unfold NodupKeys at hnd
      simp only [List.map_cons, List.nodup_cons, List.mem_cons] at hnd
      exact fun h => hnd.1 (Or.inl h)
    by_cases h1 : y.1 = k <;> by_cases h2 : x.1 = k
    · exact absurd (h1.trans h2.symm) hxy
    · simp [lookupKV, h1, h2]
    · simp [lookupKV, h1, h2]
    · simp [lookupKV, h1, h2]
  | trans p1 p2 ih1 ih2 =>
    intro hnd k
    rw [ih1 hnd k]
    exact ih2 (by
      unfold NodupKeys at hnd ⊢
      exact (p1.map Prod.fst).nodup hnd) k

theorem lookupKV_of_mem :
    ∀ {m : List (Key × PyVal)}, NodupKeys m → ∀ {k v}, (k, v) ∈ m →
      lookupKV k m = some v := by
  intro m
  induction m with
  | nil => intro _ _ _ h; cases h
  | cons kv m2 ih =>
    intro hnd k v h
    rcases List.mem_cons.mp h with he | ht
    · rw [← he]
      simp [lookupKV]
    · have hk : kv.1 ≠ k := by
        intro hkk
        unfold NodupKeys at hnd
        simp only [List.map_cons, List.nodup_cons] at hnd
        exact hnd.1 (hkk ▸ List.mem_map_of_mem Prod.fst ht)
      have hnd2 : NodupKeys m2 := by
        unfold NodupKeys at hnd ⊢
        simp only [List.map_cons] at hnd
        exact hnd.of_cons
      simp only [lookupKV, if_neg hk]
      exact ih hnd2 ht

theorem applyMapping_tok {m : List (Key × PyVal)} {k : Key} {v : PyVal}
    (hnd : NodupKeys m) (hwf : MapWF m) (hm : (k, v) ∈ m) :
    applyMapping m (tokL k) = strOfV v := by
  have hk : braceFree k := (hwf (k, v) hm).1
  have e : tokL k = render [Seg.tok k] := by simp [render, renderSeg]
  rw [e, applyMapping_render m [Seg.tok k] hwf
    (by intro sg hsg; simp at hsg; subst hsg; exact hk),
    segSubstFold_eq_substAll]
  simp [substAll, lookupKV_of_mem hnd hm, render, renderSeg]

theorem applyMapping_perm {m m2 : List (Key × PyVal)} (hp : m.Perm m2)
    (hnd : NodupKeys m) (hwf : MapWF m) {segs : List Seg} (hs : SegsWF segs) :
    applyMapping m (render segs) = applyMapping m2 (render segs) := by
  have hwf2 : MapWF m2 := fun kv hkv => hwf kv (hp.mem_iff.mpr hkv)
  rw [applyMapping_render m segs hwf hs, applyMapping_render m2 segs hwf2 hs,
    segSubstFold_eq_substAll, segSubstFold_eq_substAll]
  have hfun : substAll m = substAll m2 := by
    funext sg
    cases sg with
    | lit s => rfl
    | tok k => simp only [substAll, lookupKV_perm hp hnd k]
  rw [hfun]

theorem applyMapping_of_no_occurs :
    ∀ (m : List (Key × PyVal)) (t : Str),
      (∀ kv ∈ m, occursB (tokL kv.1) t = false) → applyMapping m t = t := by
  intro m
  induction m with
  | nil => intro t _; rfl
  | cons kv m2 ih =>
    intro t h
    have e : applyMapping (kv :: m2) t
        = applyMapping m2 (replaceL (tokL kv.1) (strOfV kv.2) t) := rfl
    rw [e, replaceL_of_not_occurs _ _ t (h kv (List.mem_cons_self kv m2)),
      ih t (fun kv2 hkv2 => h kv2 (List.mem_cons_of_mem kv hkv2))]

/-! # Lemmas about the date matcher -/

theorem matchMonth_sound {r : Str} {mo r2 : Str} (h : matchMonth r = some (mo, r2)) :
    ∃ s2, r = mo ++ s2 :: r2 ∧ DigitsL mo ∧ 1 ≤ mo.length ∧ mo.length ≤ 2 ∧
      isSepC s2 = true := by
  match r with
  | [] => simp [matchMonth] at h
  | [m1] => simp [matchMonth] at h
  | [m1, s2] =>
    rw [matchMonth] at h
    split_ifs at h with hc
    · obtain ⟨e1, e2⟩ := Prod.mk.injEq .. ▸ Option.some.injEq .. ▸ h
      injection h with h2
      injection h2 with ha hb
      subst ha; subst hb
      refine ⟨s2, rfl, ?_, by simp, by simp, (Bool.and_eq_true ..).mp hc |>.2⟩
      intro c hc2
      simp only [List.mem_singleton] at hc2
      subst hc2
      exact (Bool.and_eq_true ..).mp hc |>.1
  | m1 :: m2 :: s3 :: rest =>
    rw [matchMonth] at h
    split_ifs at h with hc1 hc2
    · injection h with h2
      injection h2 with ha hb
      subst ha; subst hb
      rcases Bool.and_eq_true .. |>.mp hc1 with ⟨hc3, hsep⟩
      rcases Bool.and_eq_true .. |>.mp hc3 with ⟨hd1, hd2⟩
      refine ⟨s3, rfl, ?_, by simp, by simp, hsep⟩
      intro c hcm
      rcases List.mem_cons.mp hcm with rfl | hcm2
      · exact hd1
      · rcases List.mem_singleton.mp hcm2 with rfl
        exact hd2
    · injection h with h2
      injection h2 with ha hb
      subst ha; subst hb
      rcases Bool.and_eq_true .. |>.mp hc2 with ⟨hd1, hsep⟩
      refine ⟨m2, rfl, ?_, by simp, by simp, hsep⟩
      intro c hcm
      rcases List.mem_singleton.mp hcm with rfl
      exact hd1

theorem matchDay_sound {r : Str} {d : Str} (h : matchDay r = some d) :
    ∃ post, r = d ++ post ∧ DigitsL d ∧ 1 ≤ d.length ∧ d.length ≤ 2 := by
  match r with
  | [] => simp [matchDay] at h
  | [e1] =>
    rw [matchDay] at h
    split_ifs at h with hc
    injection h with h2
    subst h2
    refine ⟨[], rfl, ?_, by simp, by simp⟩
    intro c hc2
    rcases List.mem_singleton.mp hc2 with rfl
    exact hc
  | e1 :: e2 :: rest =>
    rw [matchDay] at h
    split_ifs at h with hc1 hc2
    · injection h with h2
      subst h2
      rcases Bool.and_eq_true .. |>.mp hc1 with ⟨hd1, hd2⟩
      refine ⟨rest, rfl, ?_, by simp, by simp⟩
      intro c hcm
      rcases List.mem_cons.mp hcm with rfl | hcm2
      · exact hd1
      · rcases List.mem_singleton.mp hcm2 with rfl
        exact hd2
    · injection h with h2
      subst h2
      refine ⟨e2 :: rest, rfl, ?_, by simp, by simp⟩
      intro c hcm
      rcases List.mem_singleton.mp hcm with rfl
      exact hc2

theorem matchAt_sound {l : Str} {y mo d : Str}
    (h : matchAt l = some (y, mo, d)) : PatternAtG l y mo d := by
  match l with
  | [] => simp [matchAt] at h
  | [x1] => simp [matchAt] at h
  | [x1, x2] => simp [matchAt] at h
  | [x1, x2, x3] => simp [matchAt] at h
  | [x1, x2, x3, x4] => simp [matchAt] at h
  | d1 :: d2 :: d3 :: d4 :: s1 :: rest =>
    rw [matchAt] at h
    split_ifs at h with hc
    rcases Bool.and_eq_true .. |>.mp hc with ⟨hc1, hsep1⟩
    rcases Bool.and_eq_true .. |>.mp hc1 with ⟨hc2, hd4⟩
    rcases Bool.and_eq_true .. |>.mp hc2 with ⟨hc3, hd3⟩
    rcases Bool.and_eq_true .. |>.mp hc3 with ⟨hd1, hd2⟩
    cases hm : matchMonth rest with
    | none => rw [hm] at h; simp at h
    | some mr =>
      obtain ⟨mo0, rest2⟩ := mr
      rw [hm] at h
      dsimp only at h
      cases hd : matchDay rest2 with
      | none => rw [hd] at h; simp at h
      | some dd =>
        rw [hd] at h
        dsimp only at h
        injection h with h2
        injection h2 with hy h3
        injection h3 with hmo hdd
        subst hy; subst hmo; subst hdd
        rcases matchMonth_sound hm with ⟨s2, he1, hmoD, hmo1, hmo2, hs2⟩
        rcases matchDay_sound hd with ⟨post, he2, hdD, hd1l, hd2l⟩
        refine ⟨s1, s2, post, ?_, by simp, ?_, hsep1,
          hmo1, hmo2, hmoD, hs2, hd1l, hd2l, hdD⟩
        · rw [show ([d1, d2, d3, d4] : Str) ++ s1 :: (mo0 ++ s2 :: (dd ++ post))
            = d1 :: d2 :: d3 :: d4 :: s1 :: (mo0 ++ s2 :: (dd ++ post)) from rfl,
            ← he2, ← he1]
        · intro c hcm
          simp only [List.mem_cons, List.mem_singleton] at hcm
          rcases hcm with rfl | rfl | rfl | rfl | hfalse
          · exact hd1
          · exact hd2
          · exact hd3
          · exact hd4
          · cases hfalse

theorem dateSearch_sound :
    ∀ (s : Str) (g : Str × Str × Str), dateSearch s = some g → HasDatePattern s := by
  intro s
  induction s with
  | nil => intro g h; simp [dateSearch] at h
  | cons c cs ih =>
    intro g h
    rw [dateSearch] at h
    cases hma : matchAt (c :: cs) with
    | some g0 =>
      obtain ⟨y, mo, d⟩ := g0
      exact ⟨[], c :: cs, rfl, y, mo, d, matchAt_sound hma⟩
    | none =>
      rw [hma] at h
      rcases ih g h with ⟨pre, rest, he, hpat⟩
      exact ⟨c :: pre, rest, by rw [he]; rfl, hpat⟩

theorem sep_not_digit {c : Char} (h : isSepC c = true) : c.isDigit = false := by
  rcases Bool.or_eq_true .. |>.mp h with h2 | h2
  · rw [show c = '-' from eq_of_beq h2]
    rfl
  · rw [show c = '/' from eq_of_beq h2]
    rfl

theorem matchDay_digit {e : Char} (he : e.isDigit = true) :
    ∀ t, matchDay (e :: t) ≠ none := by
  intro t
  cases t with
  | nil => simp [matchDay, he]
  | cons f t2 =>
    by_cases hf : f.isDigit = true
    · simp [matchDay, he, hf]
    · simp [matchDay, he, Bool.eq_false_iff.mpr hf]

theorem matchMonth_digit {mo : Str} {s2 : Char} {e : Char} {t2 : Str}
    (hmoD : DigitsL mo) (hmo1 : 1 ≤ mo.length) (hmo2 : mo.length ≤ 2)
    (hs2 : isSepC s2 = true) (he : e.isDigit = true) :
    ∃ mo2 e2 t3, matchMonth (mo ++ s2 :: (e :: t2)) = some (mo2, e2 :: t3) ∧
      e2.isDigit = true := by
  match mo with
  | [] => simp at hmo1
  | [m1] =>
    have hm1 : m1.isDigit = true := hmoD m1 (List.mem_singleton.mpr rfl)
    refine ⟨[m1], e, t2, ?_, he⟩
    show matchMonth (m1 :: s2 :: e :: t2) = _
    rw [matchMonth, if_neg, if_pos]
    · rw [hm1, hs2]
      rfl
    · rw [sep_not_digit hs2]
      simp
  | [m1, m2] =>
    have hm1 : m1.isDigit = true := hmoD m1 (by simp)
    have hm2 : m2.isDigit = true := hmoD m2 (by simp)
    refine ⟨[m1, m2], e, t2, ?_, he⟩
    show matchMonth (m1 :: m2 :: s2 :: (e :: t2)) = _
    rw [matchMonth, if_pos]
    rw [hm1, hm2, hs2]
    rfl
  | m1 :: m2 :: m3 :: mt => simp at hmo2

theorem matchAt_complete {l : Str} (h : PatternAt l) : matchAt l ≠ none := by
  rcases h with ⟨y, mo, d, s1, s2, post, he, hy4, hyD, hs1, hmo1, hmo2, hmoD, hs2,
    hd1, hd2, hdD⟩
  match y, hy4 with
  | [a, b, c, e4], _ =>
    have ha : a.isDigit = true := hyD a (by simp)
    have hb : b.isDigit = true := hyD b (by simp)
    have hc : c.isDigit = true := hyD c (by simp)
    have he4 : e4.isDigit = true := hyD e4 (by simp)
    match d, hd1 with
    | e1 :: d2, _ =>
      have he1 : e1.isDigit = true := hdD e1 (by simp)
      have he2 : l = a :: b :: c :: e4 :: s1 :: (mo ++ s2 :: (e1 :: (d2 ++ post))) := by
        rw [he]; rfl
      rw [he2, matchAt, if_pos (by rw [ha, hb, hc, he4, hs1]; rfl)]
      rcases matchMonth_digit hmoD hmo1 hmo2 hs2 he1 with ⟨mo2, e2, t3, hmm, he2d⟩
      rw [hmm]
      dsimp only
      cases hmd : matchDay (e2 :: t3) with
      | none => exact absurd hmd (matchDay_digit he2d t3)
      | some dd => simp

theorem dateSearch_app :
    ∀ (pre rest : Str), PatternAt rest → dateSearch (pre ++ rest) ≠ none := by
  intro pre
  induction pre with
  | nil =>
    intro rest hpat
    match rest with
    | [] =>
      rcases hpat with ⟨y, mo, d, s1, s2, post, he, hy4, _⟩
      match y, hy4 with
      | [a, b, c, e4], _ => simp at he
    | c :: cs =>
      rw [List.nil_append, dateSearch]
      cases hma : matchAt (c :: cs) with
      | some g => simp
      | none => exact absurd hma (matchAt_complete hpat)
  | cons c pre2 ih =>
    intro rest hpat
    rw [List.cons_append, dateSearch]
    cases hma : matchAt (c :: (pre2 ++ rest)) with
    | some g => simp
    | none => exact ih rest hpat

theorem dateSearch_complete {s : Str} (h : HasDatePattern s) : dateSearch s ≠ none := by
  rcases h with ⟨pre, rest, he, hpat⟩
  rw [he]
  exact dateSearch_app pre rest hpat

theorem strip_decomp (s : Str) : ∃ a b, s = a ++ stripL s ++ b := by
  refine ⟨s.takeWhile isSpaceC,
    ((s.dropWhile isSpaceC).reverse.takeWhile isSpaceC).reverse, ?_⟩
  have h1 : s.takeWhile isSpaceC ++ s.dropWhile isSpaceC = s :=
    List.takeWhile_append_dropWhile isSpaceC s
  have h2 : (s.dropWhile isSpaceC).reverse.takeWhile isSpaceC ++
      (s.dropWhile isSpaceC).reverse.dropWhile isSpaceC
      = (s.dropWhile isSpaceC).reverse :=
    List.takeWhile_append_dropWhile isSpaceC (s.dropWhile isSpaceC).reverse
  have h3 : s.dropWhile isSpaceC
      = stripL s ++ ((s.dropWhile isSpaceC).reverse.takeWhile isSpaceC).reverse := by
    have h4 := congrArg List.reverse h2
    rw [List.reverse_append, List.reverse_reverse] at h4
    unfold stripL
    rw [h4]
  rw [List.append_assoc, ← h3, h1]

theorem patternAt_append {l : Str} (b : Str) (h : PatternAt l) : PatternAt (l ++ b) := by
  rcases h with ⟨y, mo, d, s1, s2, post, he, rest⟩
  exact ⟨y, mo, d, s1, s2, post ++ b, by rw [he]; simp, rest⟩

theorem hasDatePattern_of_strip {s : Str} (h : HasDatePattern (stripL s)) :
    HasDatePattern s := by
  rcases h with ⟨pre, rest, he, hpat⟩
  rcases strip_decomp s with ⟨a, b, hs⟩
  refine ⟨a ++ pre, rest ++ b, ?_, patternAt_append b hpat⟩
  rw [hs, he]
  simp

theorem dateSearch_strip_none {s : Str} (h : ¬ HasDatePattern s) :
    dateSearch (stripL s) = none := by
  cases h2 : dateSearch (stripL s) with
  | none => rfl
  | some g =>
    exact absurd (hasDatePattern_of_strip (dateSearch_sound (stripL s) g h2)) h

theorem space_not_digit {c : Char} (h : isSpaceC c = true) : c.isDigit = false := by
  simp only [isSpaceC, Bool.or_eq_true, beq_iff_eq] at h
  rcases h with ((((rfl | rfl) | rfl) | rfl) | rfl) | rfl <;> rfl

theorem digit_not_space {c : Char} (hc : c.isDigit = true) : isSpaceC c = false := by
  cases hs : isSpaceC c
  · rfl
  · rw [space_not_digit hs] at hc
    cases hc

theorem dropWhile_keep (p : Char → Bool) :
    ∀ (a : Str) (c : Char) (b : Str), p c = false →
      ∃ a2, (a ++ c :: b).dropWhile p = a2 ++ c :: b := by
  intro a
  induction a with
  | nil =>
    intro c b hc
    exact ⟨[], by simp [List.dropWhile, hc]⟩
  | cons x a2 ih =>
    intro c b hc
    cases hp : p x with
    | true =>
      rcases ih c b hc with ⟨a3, e⟩
      exact ⟨a3, by simp [List.dropWhile, hp, e]⟩
    | false =>
      exact ⟨x :: a2, by simp [List.dropWhile, hp]⟩

theorem hasDatePattern_strip {s : Str} (h : HasDatePattern s) :
    HasDatePattern (stripL s) := by
  rcases h with ⟨pre, rest, he, y, mo, d, s1, s2, post, he2, hy4, hyD, hs1, hmo1,
    hmo2, hmoD, hs2, hd1, hd2, hdD⟩
  rcases y with _ | ⟨a, ytail⟩
  · simp at hy4
  rcases List.eq_nil_or_concat d with hdnil | ⟨dinit, dlast, hdlast⟩
  · rw [hdnil] at hd1
    simp at hd1
  have ha : a.isDigit = true := hyD a (List.mem_cons_self a ytail)
  have hld : dlast.isDigit = true := hdD dlast (by rw [hdlast]; simp)
  have hs0 : s = pre ++ a :: (ytail ++ s1 :: (mo ++ s2 :: (d ++ post))) := by
    rw [he, he2]
    simp
  rcases dropWhile_keep isSpaceC pre a (ytail ++ s1 :: (mo ++ s2 :: (d ++ post)))
    (digit_not_space ha) with ⟨pre1, hdrop⟩
  have hfront : pre1 ++ a :: (ytail ++ s1 :: (mo ++ s2 :: (d ++ post)))
      = ((pre1 ++ a :: (ytail ++ s1 :: (mo ++ s2 :: dinit))) ++ [dlast]) ++ post := by
    rw [hdlast]
    simp
  rcases dropWhile_keep isSpaceC post.reverse dlast
    (pre1 ++ a :: (ytail ++ s1 :: (mo ++ s2 :: dinit))).reverse
    (digit_not_space hld) with ⟨post1, hdrop2⟩
  have hstrip : stripL s
      = (pre1 ++ a :: (ytail ++ s1 :: (mo ++ s2 :: dinit))) ++ dlast :: post1.reverse := by
    unfold stripL
    rw [hs0, hdrop, hfront]
    have hrev : (((pre1 ++ a :: (ytail ++ s1 :: (mo ++ s2 :: dinit))) ++ [dlast])
          ++ post).reverse
        = post.reverse ++ dlast ::
            (pre1 ++ a :: (ytail ++ s1 :: (mo ++ s2 :: dinit))).reverse := by
      simp
    rw [hrev, hdrop2]
    simp
  refine ⟨pre1, (a :: ytail) ++ s1 :: (mo ++ s2 :: (d ++ post1.reverse)), ?_,
    a :: ytail, mo, d, s1, s2, post1.reverse, rfl, hy4, hyD, hs1, hmo1, hmo2,
    hmoD, hs2, hd1, hd2, hdD⟩
  rw [hstrip, hdlast]
  simp

theorem dateSearch_leftmost :
    ∀ (s : Str) (g : Str × Str × Str), dateSearch s = some g →
      ∃ pre rest, s = pre ++ rest ∧ matchAt rest = some g ∧
        ∀ pre2 rest2, s = pre2 ++ rest2 → pre2.length < pre.length →
          matchAt rest2 = none := by
  intro s
  induction s with
  | nil => intro g h; simp [dateSearch] at h
  | cons c cs ih =>
    intro g h
    rw [dateSearch] at h
    cases hma : matchAt (c :: cs) with
    | some g0 =>
      rw [hma] at h
      dsimp only at h
      injection h with h2
      subst h2
      exact ⟨[], c :: cs, rfl, hma, fun pre2 rest2 _ hlen => absurd hlen (by simp)⟩
    | none =>
      rw [hma] at h
      dsimp only at h
      rcases ih g h with ⟨pre, rest, he, hm, hmin⟩
      refine ⟨c :: pre, rest, by rw [he]; rfl, hm, ?_⟩
      intro pre2 rest2 he2 hlen
      cases pre2 with
      | nil =>
        simp only [List.nil_append] at he2
        rw [← he2]
        exact hma
      | cons c2 pre3 =>
        rw [List.cons_append] at he2
        injection he2 with hc2 hcs
        refine hmin pre3 rest2 hcs ?_
        simp only [List.length_cons] at hlen
        omega

/-! # Lemmas about the document walk -/

theorem processRun_fst (m : List (Key × PyVal)) (r : Run) :
    (processRun m r).1 = { text := applyMapping m r.text, fmt := r.fmt } := by
  simp only [processRun]
  by_cases h : applyMapping m r.text = r.text
  · rw [if_pos h]
    cases r with
    | mk tx fm => rw [show applyMapping m (Run.mk tx fm).text = tx from h]
  · rw [if_neg h]

theorem getRun_eq {prs : List (List Shape)} {i j p q : Nat} {r : Run}
    (h : getRun prs i j p q = some r) :
    ∃ sl ps rs, prs.get? i = some sl ∧ sl.get? j = some (Shape.tf ps) ∧
      ps.get? p = some rs ∧ rs.get? q = some r := by
  unfold getRun at h
  cases hi : prs.get? i with
  | none => rw [hi] at h; simp at h
  | some sl =>
    rw [hi] at h
    dsimp only at h
    cases hj : sl.get? j with
    | none => rw [hj] at h; simp at h
    | some sh =>
      rw [hj] at h
      cases sh with
      | plain => simp at h
      | bad => simp at h
      | tf ps =>
        dsimp only at h
        cases hp : ps.get? p with
        | none => rw [hp] at h; simp at h
        | some rs =>
          rw [hp] at h
          dsimp only at h
          exact ⟨sl, ps, rs, rfl, hj, hp, h⟩

theorem getRun_replace (m : List (Key × PyVal)) {prs : List (List Shape)}
    {i j p q : Nat} {sl : List Shape} {ps : List (List Run)} {rs : List Run} {r : Run}
    (h1 : prs.get? i = some sl) (h2 : sl.get? j = some (Shape.tf ps))
    (h3 : ps.get? p = some rs) (h4 : rs.get? q = some r) :
    getRun (replace_placeholders m prs) i j p q = some ((processRun m r).1) := by
  unfold replace_placeholders getRun
  rw [List.get?_map, h1]
  dsimp only [Option.map]
  rw [List.get?_map, h2]
  dsimp only [Option.map, processShape]
  rw [List.get?_map, h3]
  dsimp only [Option.map]
  rw [List.get?_map, h4]
  dsimp only [Option.map]

/-! # The claims -/

/-- Claim C1, as stated, is false at a concrete input: with the mapping
`A ↦ {{B}}, B ↦ x` (distinct keys) and a document whose only run is exactly
`{{A}}`, the later iteration also replaces the token contained in the value
of A, so the run ends as `x` instead of the string form `{{B}}` of the
value of A. -/
theorem C1_counterexample :
    NodupKeys mC1x ∧
    ((("A").data : Key), PyVal.pstr (tokL (("B").data))) ∈ mC1x ∧
    getRun prsC1x 0 0 0 0 = some ⟨tokL (("A").data), 0⟩ ∧
    getRun (replace_placeholders mC1x prsC1x) 0 0 0 0 = some ⟨("x").data, 0⟩ ∧
    (("x").data : Str) ≠ strOfV (PyVal.pstr (tokL (("B").data))) := by
  decide

/-- Claim C1 (amended): for a mapping with distinct keys whose keys and
value strings contain no brace characters, `replace_placeholders` turns
every run whose text is exactly `{{KEY}}`, in any paragraph of any
text-bearing shape on any slide, into a run whose text is exactly the
string form of the mapping value of KEY, with its formatting attribute
unchanged. -/
theorem C1_exact_token_run_substituted
    (m : List (Key × PyVal)) (hnd : NodupKeys m) (hwf : MapWF m)
    (k : Key) (v : PyVal) (hm : (k, v) ∈ m)
    (prs : List (List Shape)) (i j p q : Nat) (r : Run)
    (hr : getRun prs i j p q = some r) (ht : r.text = tokL k) :
    getRun (replace_placeholders m prs) i j p q
      = some { text := strOfV v, fmt := r.fmt } := by
  have happ : applyMapping m r.text = strOfV v := by
    rw [ht]
    exact applyMapping_tok hnd hwf hm
  rcases getRun_eq hr with ⟨sl, ps, rs, h1, h2, h3, h4⟩
  rw [getRun_replace m h1 h2 h3 h4, processRun_fst, happ]

/-- Witness for C1 at a concrete document and mapping. -/
theorem C1_witness :
    NodupKeys mC1w ∧ MapWF mC1w ∧
    ((("K").data : Key), PyVal.pstr (("val").data)) ∈ mC1w ∧
    getRun prsC1w 0 0 0 0 = some ⟨tokL (("K").data), 3⟩ ∧
    getRun (replace_placeholders mC1w prsC1w) 0 0 0 0
      = some ⟨("val").data, 3⟩ :=
  ⟨by decide, by decide, by decide, by decide,
    C1_exact_token_run_substituted mC1w (by decide) (by decide)
      (("K").data) (PyVal.pstr (("val").data)) (by decide)
      prsC1w 0 0 0 0 ⟨tokL (("K").data), 3⟩ (by decide) rfl⟩

/-- Claim C2, as stated, is false at concrete inputs: on a pattern-free
input the code returns the whitespace-stripped string, not the original
(` a ` becomes `a`), and an input with mixed separators, which contains no
`YYYY-M-D` or `YYYY/M/D` shaped pattern, is reformatted rather than passed
through (`2024-3/5` becomes `05-03-2024`). -/
theorem C2_counterexample :
    format_date_dd_mm_yyyy (some ((" a ").data)) ≠ some ((" a ").data) ∧
    format_date_dd_mm_yyyy (some ((" a ").data)) = some (("a").data) ∧
    format_date_dd_mm_yyyy (some (("2024-3/5").data)) ≠ some (("2024-3/5").data) ∧
    format_date_dd_mm_yyyy (some (("2024-3/5").data)) = some (("05-03-2024").data) := by
  decide

/-- Claim C2 (amended): the date normalizer maps `None` to `None` and
reformats the stated examples as claimed.  For ASCII inputs, on which the
embedding coincides exactly with the Unicode-aware `\\d` and `str.strip`
of the program, it holds universally that: an input containing an
occurrence of the pattern (a 4-digit year, a dash-or-slash separator, a
1-2 digit month, a separator chosen independently, and a 1-2 digit day)
is stripped of surrounding whitespace and reformatted to `DD-MM-YYYY` by
zero-padding the day and month groups of a pattern occurrence located at
the leftmost pattern position of the stripped string (no occurrence
starts earlier); and an input containing no occurrence of the pattern is
returned whitespace-stripped, not unchanged.  The `AsciiStr` hypotheses
scope the two universal clauses to the fragment the embedding models
faithfully; they are not needed for the Lean proof itself. -/
theorem C2_date_normalizer :
    format_date_dd_mm_yyyy none = none ∧
    format_date_dd_mm_yyyy (some (("2024-3-5").data)) = some (("05-03-2024").data) ∧
    format_date_dd_mm_yyyy (some (("2024/12/31").data)) = some (("31-12-2024").data) ∧
    format_date_dd_mm_yyyy (some (("not a date").data)) = some (("not a date").data) ∧
    (∀ s : Str, AsciiStr s → HasDatePattern s →
      ∃ pre rest y mo d,
        stripL s = pre ++ rest ∧ PatternAtG rest y mo d ∧
        (∀ pre2 rest2, stripL s = pre2 ++ rest2 → pre2.length < pre.length →
          ¬ PatternAt rest2) ∧
        format_date_dd_mm_yyyy (some s)
          = some (zfill2 d ++ '-' :: (zfill2 mo ++ '-' :: y))) ∧
    (∀ s : Str, AsciiStr s → ¬ HasDatePattern s →
      format_date_dd_mm_yyyy (some s) = some (stripL s)) := by
  refine ⟨rfl, by decide, by decide, by decide, ?_, ?_⟩
  · intro s _ h
    have h2 : HasDatePattern (stripL s) := hasDatePattern_strip h
    cases hg : dateSearch (stripL s) with
    | none => exact absurd hg (dateSearch_complete h2)
    | some g =>
      obtain ⟨y, mo, d⟩ := g
      rcases dateSearch_leftmost (stripL s) (y, mo, d) hg with
        ⟨pre, rest, he, hm, hmin⟩
      refine ⟨pre, rest, y, mo, d, he, matchAt_sound hm, ?_, ?_⟩
      · intro pre2 rest2 he2 hlen hp
        exact (matchAt_complete hp) (hmin pre2 rest2 he2 hlen)
      · show some (format_date_core s) = _
        simp only [format_date_core]
        rw [hg]
  · intro s _ h
    show some (format_date_core s) = _
    simp only [format_date_core]
    rw [dateSearch_strip_none h]

/-- Witness for C2: the positive clause at a concrete whitespace-wrapped
date and the no-pattern clause at a concrete pattern-free input. -/
theorem C2_witness :
    (∃ pre rest y mo d,
      stripL ((" 2024-3-5 ").data) = pre ++ rest ∧ PatternAtG rest y mo d ∧
      (∀ pre2 rest2, stripL ((" 2024-3-5 ").data) = pre2 ++ rest2 →
        pre2.length < pre.length → ¬ PatternAt rest2) ∧
      format_date_dd_mm_yyyy (some ((" 2024-3-5 ").data))
        = some (zfill2 d ++ '-' :: (zfill2 mo ++ '-' :: y))) ∧
    format_date_dd_mm_yyyy (some (("hello").data)) = some (stripL (("hello").data)) := by
  constructor
  · refine C2_date_normalizer.2.2.2.2.1 ((" 2024-3-5 ").data) (by decide) ?_
    exact ⟨(" ").data, ("2024-3-5 ").data, by decide, ("2024").data, ("3").data,
      ("5").data, '-', '-', (" ").data, by decide, by decide, by decide, by decide,
      by decide, by decide, by decide, by decide, by decide, by decide, by decide⟩
  · exact C2_date_normalizer.2.2.2.2.2 (("hello").data) (by decide)
      (fun h => (dateSearch_complete h) (by decide))

/-- Claim C3, as stated, is false at a concrete input: in the conversion
endpoint of the remote-template variant the Hijri entry date is placed in
the field mapping raw, not normalized. -/
theorem C3_counterexample :
    lookupKV (("ENTRY_DATE_HIJRI").data) (mappingPdfApi samplePayload)
      = some (.pstr (("1446-1-2").data)) ∧
    format_date_core (("1446-1-2").data) = ("02-01-1446").data ∧
    some (PyVal.pstr (("1446-1-2").data))
      ≠ some (PyVal.pstr (format_date_core (("1446-1-2").data))) := by
  decide

/-- Claim C3 (amended): in the remote-template variant the slide-deck
endpoint applies the date normalizer to all six date fields, while the
conversion endpoint applies it only to the two Gregorian dates, the report
issue date and the print date, passing both Hijri fields through raw; the
local-template variant applies no date normalization to any field. -/
theorem C3_mapping_normalization (p : ReportPayload) :
    (lookupKV (("ENTRY_DATE_GREGORIAN").data) (mappingPptxApi p)
        = some (.pstr (format_date_core p.ENTRY_DATE_GREGORIAN)) ∧
      lookupKV (("EXIT_DATE_GREGORIAN").data) (mappingPptxApi p)
        = some (.pstr (format_date_core p.EXIT_DATE_GREGORIAN)) ∧
      lookupKV (("ENTRY_DATE_HIJRI").data) (mappingPptxApi p)
        = some (optPy (p.ENTRY_DATE_HIJRI.map format_date_core)) ∧
      lookupKV (("EXIT_DATE_HIJRI").data) (mappingPptxApi p)
        = some (optPy (p.EXIT_DATE_HIJRI.map format_date_core)) ∧
      lookupKV (("REPORT_ISSUE_DATE").data) (mappingPptxApi p)
        = some (.pstr (format_date_core p.REPORT_ISSUE_DATE)) ∧
      lookupKV (("PRINT_DATE").data) (mappingPptxApi p)
        = some (.pstr (format_date_core p.PRINT_DATE))) ∧
    (lookupKV (("ENTRY_DATE_GREGORIAN").data) (mappingPdfApi p)
        = some (.pstr (format_date_core p.ENTRY_DATE_GREGORIAN)) ∧
      lookupKV (("EXIT_DATE_GREGORIAN").data) (mappingPdfApi p)
        = some (.pstr (format_date_core p.EXIT_DATE_GREGORIAN)) ∧
      lookupKV (("ENTRY_DATE_HIJRI").data) (mappingPdfApi p)
        = some (optPy p.ENTRY_DATE_HIJRI) ∧
      lookupKV (("EXIT_DATE_HIJRI").data) (mappingPdfApi p)
        = some (optPy p.EXIT_DATE_HIJRI) ∧
      lookupKV (("REPORT_ISSUE_DATE").data) (mappingPdfApi p)
        = some (.pstr (format_date_core p.REPORT_ISSUE_DATE)) ∧
      lookupKV (("PRINT_DATE").data) (mappingPdfApi p)
        = some (.pstr (format_date_core p.PRINT_DATE))) ∧
    (lookupKV (("ENTRY_DATE_GREGORIAN").data) (mappingLocal p)
        = some (.pstr p.ENTRY_DATE_GREGORIAN) ∧
      lookupKV (("EXIT_DATE_GREGORIAN").data) (mappingLocal p)
        = some (.pstr p.EXIT_DATE_GREGORIAN) ∧
      lookupKV (("ENTRY_DATE_HIJRI").data) (mappingLocal p)
        = some (optPy p.ENTRY_DATE_HIJRI) ∧
      lookupKV (("EXIT_DATE_HIJRI").data) (mappingLocal p)
        = some (optPy p.EXIT_DATE_HIJRI) ∧
      lookupKV (("REPORT_ISSUE_DATE").data) (mappingLocal p)
        = some (.pstr p.REPORT_ISSUE_DATE) ∧
      lookupKV (("PRINT_DATE").data) (mappingLocal p)
        = some (.pstr p.PRINT_DATE)) :=
  ⟨⟨rfl, rfl, rfl, rfl, rfl, rfl⟩, ⟨rfl, rfl, rfl, rfl, rfl, rfl⟩,
    ⟨rfl, rfl, rfl, rfl, rfl, rfl⟩⟩

/-- Claim C4: when no conversion executable is configured or found, both
variants respond with a 500 whose detail names `soffice`, but the cleanup
statements are skipped (the `HTTPException` raised inside the inner
`except` clause propagates past them), so no deletion of the scratch files
is attempted and the scratch pptx leaks, contrary to the claim. -/
theorem C4_missing_soffice_skips_cleanup
    (env : ConvEnvA) (p : ReportPayload) (d : PresDoc)
    (hload : (load_template_presentation env.api).1 = Except.ok d)
    (h1 : env.libreofficePath = none) (h2 : env.whichSoffice = none)
    (envL : LocalEnv) (p2 : ReportPayload)
    (hL1 : envL.templateExists = true) (hL2 : envL.presLoadOk = true)
    (hL3 : envL.libreofficePath = none) (hL4 : envL.whichSoffice = none) :
    generate_pdf_api env p = (.error ⟨500, sofficeMissingMsg⟩, []) ∧
    generate_pdf_local envL p2 = (.error ⟨500, sofficeMissingMsg⟩, []) ∧
    occursB (("soffice").data) sofficeMissingMsg = true := by
  refine ⟨?_, ?_, by decide⟩
  · unfold generate_pdf_api
    rw [hload]
    dsimp only
    rw [h1, h2]
    exact rfl
  · unfold generate_pdf_local
    rw [hL1, hL2, hL3, hL4]
    exact rfl

/-- Witness for C4 at concrete environments. -/
theorem C4_witness :
    generate_pdf_api envC4w samplePayload = (.error ⟨500, sofficeMissingMsg⟩, []) ∧
    generate_pdf_local envC4wL samplePayload
      = (.error ⟨500, sofficeMissingMsg⟩, []) ∧
    occursB (("soffice").data) sofficeMissingMsg = true :=
  C4_missing_soffice_skips_cleanup envC4w samplePayload ⟨[]⟩ rfl rfl rfl
    envC4wL samplePayload rfl rfl rfl rfl

/-- Claim C5, as stated, is false at a concrete input: the two iteration
orders of the same two-entry mapping with distinct keys produce different
texts for the run `{{A}}`, because the value of A contains the token of B
and is substituted again only when B is processed later. -/
theorem C5_counterexample :
    mC5a.Perm mC5b ∧ NodupKeys mC5a ∧
    applyMapping mC5a (tokL (("A").data)) = ("x").data ∧
    applyMapping mC5b (tokL (("A").data)) = tokL (("B").data) ∧
    applyMapping mC5a (tokL (("A").data)) ≠ applyMapping mC5b (tokL (("A").data)) := by
  decide

/-- Claim C5 (amended): for run texts that are concatenations of brace-free
literal stretches and whole placeholder tokens, and mappings with distinct
keys whose keys and value strings are brace-free, the per-key replacements
yield the same run text in every iteration order of the mapping entries. -/
theorem C5_iteration_order_immaterial
    (m m2 : List (Key × PyVal)) (segs : List Seg)
    (hp : m.Perm m2) (hnd : NodupKeys m) (hwf : MapWF m) (hs : SegsWF segs) :
    applyMapping m (render segs) = applyMapping m2 (render segs) :=
  applyMapping_perm hp hnd hwf hs

/-- Witness for C5 at a concrete mapping and run text. -/
theorem C5_witness :
    mC5wA.Perm mC5wB ∧ NodupKeys mC5wA ∧ MapWF mC5wA ∧ SegsWF segsC5w ∧
    applyMapping mC5wA (render segsC5w) = applyMapping mC5wB (render segsC5w) :=
  ⟨by decide, by decide, by decide, by decide,
    C5_iteration_order_immaterial mC5wA mC5wB segsC5w (by decide) (by decide)
      (by decide) (by decide)⟩

/-- Claim C6: the local-template `/generate-pdf` handler always terminates
with a 500 response, and when template loading and external conversion all
succeed the failing step is the read of the undefined name `tmp_pdf_path`,
whose `NameError` is reported after the scratch-file cleanup runs. -/
theorem C6_local_pdf_never_succeeds :
    (∀ (env : LocalEnv) (p : ReportPayload),
      ∃ d, (generate_pdf_local env p).1 = .error ⟨500, d⟩) ∧
    (∀ (env : LocalEnv) (p : ReportPayload),
      env.templateExists = true → env.presLoadOk = true →
      (∃ s, resolveSoffice env.libreofficePath env.whichSoffice = some s) →
      env.runReturncode = 0 → env.producedPdfExists = true →
      generate_pdf_local env p =
        (.error ⟨500, nameErrorMsg⟩,
          [env.tmpPptxPath, withSuffixPdf env.tmpPptxPath])) := by
  constructor
  · intro env p
    unfold generate_pdf_local
    repeat' split
    all_goals exact ⟨_, rfl⟩
  · intro env p h1 h2 h3 h4 h5
    rcases h3 with ⟨s, h3⟩
    unfold generate_pdf_local
    rw [h1, h2, h3, h4, h5]
    simp

/-- Witness for C6 at a concrete all-success environment. -/
theorem C6_witness :
    generate_pdf_local envC6w samplePayload =
      (.error ⟨500, nameErrorMsg⟩,
        [envC6w.tmpPptxPath, withSuffixPdf envC6w.tmpPptxPath]) :=
  C6_local_pdf_never_succeeds.2 envC6w samplePayload rfl rfl
    ⟨("soffice").data, rfl⟩ rfl rfl

/-- Claim C7: a shape that raises during processing is skipped while every
other shape of every slide is still processed: substituting over a
presentation containing a failing shape processes the slides before and
after, and the shapes before and after the failing one, exactly as usual,
and leaves the failing shape unchanged. -/
theorem C7_bad_shape_isolated (m : List (Key × PyVal))
    (sl1 sl2 : List (List Shape)) (pre post : List Shape) :
    replace_placeholders m (sl1 ++ (pre ++ Shape.bad :: post) :: sl2) =
      replace_placeholders m sl1 ++
        (pre.map (processShape m) ++ Shape.bad :: post.map (processShape m)) ::
        replace_placeholders m sl2 := by
  unfold replace_placeholders
  simp [processShape]

/-- Claim C8: a run whose text contains no placeholder token of any mapping
key is left untouched: the processed run is the original run, and the
written flag is false, so its text is never overwritten and its formatting
is preserved. -/
theorem C8_tokenfree_run_untouched (m : List (Key × PyVal)) (r : Run)
    (h : ∀ kv ∈ m, occursB (tokL kv.1) r.text = false) :
    processRun m r = (r, false) := by
  have ha : applyMapping m r.text = r.text := applyMapping_of_no_occurs m r.text h
  simp only [processRun, ha, if_pos]

/-- Witness for C8 at a concrete token-free run. -/
theorem C8_witness :
    (∀ kv ∈ mC8w, occursB (tokL kv.1) rC8w.text = false) ∧
    processRun mC8w rC8w = (rC8w, false) :=
  ⟨by decide, C8_tokenfree_run_untouched mC8w rC8w (by decide)⟩

/-- Claim C9: the remote template loader errors when the URL configuration
is absent, when the fetch raises, and when the response status is not a
success status; it returns a loaded document only when the fetch returns a
success status (the code accepts exactly 200); and every fetch it performs
uses the URL with a 20-second timeout. -/
theorem C9_template_loader (env : ApiEnv) :
    (env.templateUrl = none →
      (load_template_presentation env).1 = .error ⟨500, msgNoUrl⟩ ∧
      (load_template_presentation env).2 = []) ∧
    (∀ url msg, env.templateUrl = some url → env.fetch url 20 = .exc msg →
      load_template_presentation env =
        (.error ⟨500, ("Error fetching template: ").data ++ msg⟩, [(url, 20)])) ∧
    (∀ url r, env.templateUrl = some url → env.fetch url 20 = .resp r →
      ¬ (200 ≤ r.status ∧ r.status < 300) →
      ∃ d, load_template_presentation env = (.error ⟨500, d⟩, [(url, 20)])) ∧
    (∀ url r doc, env.templateUrl = some url → env.fetch url 20 = .resp r →
      (load_template_presentation env).1 = .ok doc →
      200 ≤ r.status ∧ r.status < 300) ∧
    (∀ url, env.templateUrl = some url →
      (load_template_presentation env).2 = [(url, 20)]) := by
  refine ⟨?_, ?_, ?_, ?_, ?_⟩
  · intro h
    unfold load_template_presentation
    rw [h]
    exact ⟨rfl, rfl⟩
  · intro url msg hu hf
    unfold load_template_presentation
    rw [hu]
    dsimp only
    rw [hf]
  · intro url r hu hf hns
    have hs : ¬ (r.status = 200) := by
      intro he
      refine hns ⟨?_, ?_⟩ <;> omega
    unfold load_template_presentation
    rw [hu]
    dsimp only
    rw [hf]
    dsimp only
    rw [if_neg hs]
    exact ⟨_, rfl⟩
  · intro url r doc hu hf hok
    by_cases hs : r.status = 200
    · constructor <;> omega
    · unfold load_template_presentation at hok
      rw [hu] at hok
      dsimp only at hok
      rw [hf] at hok
      dsimp only at hok
      rw [if_neg hs] at hok
      simp at hok
  · intro url hu
    unfold load_template_presentation
    rw [hu]
    dsimp only
    cases hfo : env.fetch url 20 with
    | exc m => rfl
    | resp r =>
      dsimp only
      split <;> rfl

/-- Witness for C9 at a concrete environment without a configured URL. -/
theorem C9_witness :
    (load_template_presentation envC9w).1 = .error ⟨500, msgNoUrl⟩ ∧
    (load_template_presentation envC9w).2 = [] :=
  (C9_template_loader envC9w).1 rfl

/-- Claim C10: the matcher is broader than the two stated shapes: the
mixed-separator input `2024-3/5` is reformatted to `05-03-2024`, and in
`12345-6-7`, where five digits precede the first separator, the last four
digits `2345` of the run are taken as the year, yielding `07-06-2345`. -/
theorem C10_matcher_broader :
    format_date_dd_mm_yyyy (some (("2024-3/5").data)) = some (("05-03-2024").data) ∧
    format_date_dd_mm_yyyy (some (("12345-6-7").data)) = some (("07-06-2345").data) := by
  decide

end Reports
